import Mathlib

/-!
Verification development for the AST-to-IR lowering pass declared in
`src/stage1/astgen.hpp`.  The repository ships only the public header of the
pass, so every operation below is a shallow embedding modelled from the
specification's description of that operation (each doc comment says so and
names the missing code).  Machine pointers become indices, in-out parameters
become explicit state passing, and fallible operations return `Except` or
`Option` values.
-/

namespace ZigIr

/-- A source location (line and column) of an AST node. -/
structure SrcLoc where
  line : Nat
  col : Nat
deriving DecidableEq, Repr

/-- The error taxonomy of the pass, plus the non-fatal no-effect warning. -/
inductive DiagKind where
  | nameCollision
  | unresolvedName
  | invalidConstruct
  | forcedComptimeViolation
  | recursionLimitExceeded
  | warnNoEffect
deriving DecidableEq, Repr

/-- Modelled from the spec: `ErrorMsg` is a source location, message text and
an ordered list of subordinate note frames, each a (location, description)
pair.  The body of the diagnostics component is not in the repository's
files (only `astgen.hpp` is); a `kind` tag records which member of the
spec's error taxonomy the diagnostic reports. -/
structure ErrorMsg where
  kind : DiagKind
  loc : SrcLoc
  msg : String
  notes : List (SrcLoc × String)
deriving DecidableEq, Repr

/-- The scope kinds the spec lists: top-level, function, block, loop,
comptime-block, defer and error-handling. -/
inductive ScopeKind where
  | topLevel
  | fnDef
  | blk
  | loopScope
  | comptimeBlock
  | deferScope
  | errHandling
deriving DecidableEq, Repr

/-- Modelled from the spec: one local binding (`ZigVar`), with the constness
flags, the shadowability flag, the deferred comptime instruction reference
and the skip-name-check flag; `declLoc` is the declaration site used by
collision diagnostics.  The `ZigVar` definition is not in the repository's
files. -/
structure Variable where
  name : String
  srcIsConst : Bool
  genIsConst : Bool
  isShadowable : Bool
  skipNameCheck : Bool
  isComptime : Option Nat
  declLoc : SrcLoc
deriving DecidableEq, Repr

/-- Modelled from the spec: a `Scope` is a singly linked chain of lexical
contexts, each holding its kind tag and its list of bindings, ending at one
top-level scope.  The `Scope` definition is not in the repository's files. -/
inductive Scope where
  | top (bindings : List Variable)
  | child (kind : ScopeKind) (bindings : List Variable) (parent : Scope)
deriving DecidableEq, Repr

/-- All bindings visible from a scope, innermost first, walking the parent
chain outward. -/
def Scope.allBindings : Scope → List Variable
  | Scope.top bs => bs
  | Scope.child _ bs p => bs ++ Scope.allBindings p

/-- The kind tags of the scope chain, from the scope itself outward. -/
def Scope.chainKinds : Scope → List ScopeKind
  | Scope.top _ => [ScopeKind.topLevel]
  | Scope.child k _ p => k :: Scope.chainKinds p

/-- Append a binding to the innermost scope's binding list. -/
def Scope.addBinding (v : Variable) : Scope → Scope
  | Scope.top bs => Scope.top (bs ++ [v])
  | Scope.child k bs p => Scope.child k (bs ++ [v]) p

/-- `t` is `s` itself or a scope built by nesting new frames below `s`. -/
inductive Scope.isDescendantOf : Scope → Scope → Prop where
  | refl (s : Scope) : Scope.isDescendantOf s s
  | step (k : ScopeKind) (bs : List Variable) {t s : Scope} :
      Scope.isDescendantOf t s → Scope.isDescendantOf (Scope.child k bs t) s

/-- Modelled from the spec: `lookup(scope, name)` searches the current scope
then walks parent references outward, stopping at the first match.  The
lookup code is not in the repository's files. -/
def Scope.lookup (sc : Scope) (name : String) : Option Variable :=
  sc.allBindings.find? (fun v => v.name == name)

/-- Modelled from the spec: `is_forced_comptime(scope)` walks outward and
returns true as soon as any ancestor (including the scope itself) is a
comptime-forcing scope.  Its body is not in the repository's files. -/
def is_forced_comptime : Scope → Bool
  | Scope.top _ => false
  | Scope.child k _ p => k == ScopeKind.comptimeBlock || is_forced_comptime p

/-- One instruction operation kind of the unanalyzed source IR. -/
inductive IrInstKind where
  | constInt (v : Nat)
  | varRef (name : String)
  | fieldPtr (field : String)
  | callInst
deriving DecidableEq, Repr

/-- Modelled from the spec: an unanalyzed instruction (`IrInstSrc`) is an
operation tag plus non-owning references to earlier instructions of the same
stream, embedded as indices.  The definition is not in the repository's
files. -/
structure IrInstSrc where
  kind : IrInstKind
  operands : List Nat
deriving DecidableEq, Repr

/-- Modelled from the spec: side-effect classification is a pure function of
the instruction's tag — calls (and mutations) are side-effecting; pure
reads, constants and field access are not.  The body of
`ir_inst_src_has_side_effects` is not in the repository's files. -/
def ir_inst_src_has_side_effects (inst : IrInstSrc) : Bool :=
  match inst.kind with
  | IrInstKind.callInst => true
  | _ => false

/-- Modelled from the spec: `Stage1Zir` is an ordered, append-only sequence
of instructions plus a poisoned/clean flag and an optional terminal
diagnostic.  The definition is not in the repository's files. -/
structure Stage1Zir where
  instructions : List IrInstSrc
  poisoned : Bool
  terminalDiag : Option ErrorMsg
deriving DecidableEq, Repr

/-- The fresh, clean, empty stream a caller hands to the lowering pass. -/
def emptyZir : Stage1Zir :=
  { instructions := [], poisoned := false, terminalDiag := none }

/-- Modelled from the spec: `invalidate_exec(exec, msg)` marks the stream
poisoned and stores the triggering diagnostic as its terminal diagnostic;
invalidating an already-poisoned stream does not overwrite the original
terminal diagnostic.  The body is not in the repository's files. -/
def invalidate_exec (exec : Stage1Zir) (msg : ErrorMsg) : Stage1Zir :=
  if exec.poisoned then exec
  else { exec with poisoned := true, terminalDiag := some msg }

/-- Modelled from the spec: `ir_should_inline(exec, scope)` is true exactly
when `is_forced_comptime(scope)` holds for the enclosing scope.  The body is
not in the repository's files. -/
def ir_should_inline (_exec : Stage1Zir) (scope : Scope) : Bool :=
  is_forced_comptime scope

/-- Does the new binding named `name` (with shadowability `newShadowable`)
collide with the prior binding `v`?  Per the spec a collision is a prior
binding of the same name where the prior one is non-shadowable or the new
one is. -/
def collidesWith (name : String) (newShadowable : Bool) (v : Variable) : Bool :=
  v.name == name && (!v.isShadowable || !newShadowable)

/-- First colliding prior binding on the full outward scope chain. -/
def findCollision (sc : Scope) (name : String) (newShadowable : Bool) :
    Option Variable :=
  sc.allBindings.find? (collidesWith name newShadowable)

/-- The `Variable` record a registration request describes. -/
def mkLocalVar (node_loc : SrcLoc) (name : String) (src_is_const : Bool)
    (gen_is_const : Bool) (is_shadowable : Bool) (is_comptime : Option Nat)
    (skip_name_check : Bool) : Variable :=
  { name := name, srcIsConst := src_is_const, genIsConst := gen_is_const,
    isShadowable := is_shadowable, skipNameCheck := skip_name_check,
    isComptime := is_comptime, declLoc := node_loc }

/-- Modelled from the spec: `create_local_var` checks the full outward scope
chain for a colliding name unless `skip_name_check` is set; on a collision it
fails with a `NameCollision` diagnostic pinpointing both declaration sites,
otherwise it appends the new `Variable` to the owning scope's binding list
and returns it.  The body is not in the repository's files (only its
declaration in `astgen.hpp`). -/
def create_local_var (node_loc : SrcLoc) (parent_scope : Scope) (name : String)
    (src_is_const : Bool) (gen_is_const : Bool) (is_shadowable : Bool)
    (is_comptime : Option Nat) (skip_name_check : Bool) :
    Except ErrorMsg (Scope × Variable) :=
  let v : Variable := mkLocalVar node_loc name src_is_const gen_is_const
    is_shadowable is_comptime skip_name_check
  if skip_name_check then Except.ok (parent_scope.addBinding v, v)
  else
    match findCollision parent_scope name is_shadowable with
    | some prior =>
        Except.error
          { kind := DiagKind.nameCollision, loc := node_loc,
            msg := "redeclaration of " ++ name,
            notes := [(prior.declLoc, "previous declaration is here")] }
    | none => Except.ok (parent_scope.addBinding v, v)

/-- Modelled from the spec: the result location of an expression is one of
discard, return-to-caller, write-to-existing-storage, allocate-new-storage
or none/let-analysis-decide.  The `ResultLoc` definition is not in the
repository's files. -/
inductive ResultLoc where
  | noneLoc
  | discard
  | returnToCaller
  | writeTo (idx : Nat)
  | allocNew
deriving DecidableEq, Repr

/-- Modelled from the spec: `no_result_loc` is the neutral "no location
requested yet" default.  Its body is not in the repository's files. -/
def no_result_loc : ResultLoc := ResultLoc.noneLoc

/-- Modelled from the spec: the slice of `CodeGen` state this pass touches —
the accumulated fatal diagnostics and the non-fatal warnings.  The `CodeGen`
definition is not in the repository's files. -/
structure CodeGen where
  errors : List ErrorMsg
  warnings : List ErrorMsg
deriving DecidableEq, Repr

/-- Record a fatal diagnostic on the compilation. -/
def CodeGen.addError (g : CodeGen) (e : ErrorMsg) : CodeGen :=
  { g with errors := g.errors ++ [e] }

/-- Record a non-fatal warning on the compilation. -/
def CodeGen.addWarning (g : CodeGen) (e : ErrorMsg) : CodeGen :=
  { g with warnings := g.warnings ++ [e] }

/-- Modelled from the spec: the slice of analyzed-IR state (`Stage1Air`)
that call-stack rendering reads — the active chain of enclosing
forced-comptime invocations, most recent first, each a (location,
description) frame.  The `Stage1Air` definition is not in the repository's
files. -/
structure Stage1Air where
  callStack : List (SrcLoc × String)
deriving DecidableEq, Repr

/-- Modelled from the spec: `ir_add_call_stack_errors_gen(exec, msg, limit)`
walks the chain of enclosing forced-comptime invocations most-recent first
and appends up to `limit` "called from" note frames to the diagnostic,
truncating silently beyond `limit`.  The body is not in the repository's
files; `limit` is a C `int`, embedded as `Int` (a non-positive limit appends
nothing). -/
def ir_add_call_stack_errors_gen (exec : Stage1Air) (errMsg : ErrorMsg)
    (limit : Int) : ErrorMsg :=
  { errMsg with notes := errMsg.notes ++
      (exec.callStack.take limit.toNat).map (fun fr => (fr.1, "called from here")) }

/-- The expression subset of the AST that the embedded lowering pass covers:
integer literals, identifier references, field access and single-argument
calls. -/
inductive AstExpr where
  | intLit (v : Nat) (loc : SrcLoc)
  | symbolRef (name : String) (loc : SrcLoc)
  | fieldAccess (obj : AstExpr) (field : String) (loc : SrcLoc)
  | callExpr (fn : AstExpr) (arg : AstExpr) (loc : SrcLoc)
deriving DecidableEq, Repr

/-- The source location of an expression node. -/
def AstExpr.loc : AstExpr → SrcLoc
  | AstExpr.intLit _ l => l
  | AstExpr.symbolRef _ l => l
  | AstExpr.fieldAccess _ _ l => l
  | AstExpr.callExpr _ _ l => l

/-- An AST subtree handed to `ir_gen`: either a single expression statement
or a block of expression statements. -/
inductive AstNode where
  | exprStmt (e : AstExpr) (loc : SrcLoc)
  | blockNode (stmts : List AstExpr) (loc : SrcLoc)
deriving DecidableEq, Repr

/-- Append one instruction to the stream; returns the new stream and the
index of the appended instruction. -/
def appendInst (exec : Stage1Zir) (k : IrInstKind) (ops : List Nat) :
    Stage1Zir × Nat :=
  ({ exec with instructions := exec.instructions ++ [{ kind := k, operands := ops }] },
   exec.instructions.length)

/-- Modelled from the spec: recursive expression lowering — dispatch on the
AST node kind, recursively lower operands, append instructions to the
current stream and return the index of the instruction holding the computed
value, or `none` (the failure sentinel) after poisoning the stream.  The
lowering bodies behind `ir_gen` are not in the repository's files. -/
def ir_gen_expr (g : CodeGen) (scope : Scope) (exec : Stage1Zir)
    (_rl : ResultLoc) : AstExpr → CodeGen × Stage1Zir × Option Nat
  | AstExpr.intLit v _ =>
      let (e1, i) := appendInst exec (IrInstKind.constInt v) []
      (g, e1, some i)
  | AstExpr.symbolRef name loc =>
      match scope.lookup name with
      | some _ =>
          let (e1, i) := appendInst exec (IrInstKind.varRef name) []
          (g, e1, some i)
      | none =>
          let msg : ErrorMsg :=
            { kind := DiagKind.unresolvedName, loc := loc,
              msg := "use of undeclared identifier " ++ name, notes := [] }
          (g.addError msg, invalidate_exec exec msg, none)
  | AstExpr.fieldAccess obj field _ =>
      match ir_gen_expr g scope exec no_result_loc obj with
      | (g1, e1, some oi) =>
          let (e2, i) := appendInst e1 (IrInstKind.fieldPtr field) [oi]
          (g1, e2, some i)
      | (g1, e1, none) => (g1, e1, none)
  | AstExpr.callExpr fn arg _ =>
      match ir_gen_expr g scope exec no_result_loc fn with
      | (g1, e1, some fi) =>
          match ir_gen_expr g1 scope e1 no_result_loc arg with
          | (g2, e2, some ai) =>
              let (e3, i) := appendInst e2 IrInstKind.callInst [fi, ai]
              (g2, e3, some i)
          | (g2, e2, none) => (g2, e2, none)
      | (g1, e1, none) => (g1, e1, none)

/-- The non-fatal "statement has no effect" warning diagnostic. -/
def noEffectWarning (loc : SrcLoc) : ErrorMsg :=
  { kind := DiagKind.warnNoEffect, loc := loc,
    msg := "statement has no effect", notes := [] }

/-- Modelled from the spec: statement lowering discards its sub-expression's
result (result location = discard) and, when the resulting instruction has
no side effects, emits the "statement has no effect" warning — non-fatal,
not a poisoning failure.  Returns `false` when lowering of the statement
failed.  The body behind `ir_gen` is not in the repository's files. -/
def ir_gen_stmt (g : CodeGen) (scope : Scope) (exec : Stage1Zir)
    (stmt : AstExpr) : CodeGen × Stage1Zir × Bool :=
  match ir_gen_expr g scope exec ResultLoc.discard stmt with
  | (g1, e1, some i) =>
      match e1.instructions[i]? with
      | some inst =>
          if ir_inst_src_has_side_effects inst then (g1, e1, true)
          else (g1.addWarning (noEffectWarning stmt.loc), e1, true)
      | none => (g1, e1, true)
  | (g1, e1, none) => (g1, e1, false)

/-- Lower a list of statements in order, aborting on the first failed
statement (failure is propagated, not recovered). -/
def ir_gen_stmts (g : CodeGen) (scope : Scope) (exec : Stage1Zir) :
    List AstExpr → CodeGen × Stage1Zir × Bool
  | [] => (g, exec, true)
  | s :: rest =>
      match ir_gen_stmt g scope exec s with
      | (g1, e1, true) => ir_gen_stmts g1 scope e1 rest
      | (g1, e1, false) => (g1, e1, false)

/-- Modelled from the spec: `ir_gen(g, node, scope, exec)` is the general
entry point populating a generation unit's stream from an AST subtree; it
returns the success flag together with the updated compilation state and
stream (the C++ signature mutates them through pointers).  The body is not
in the repository's files. -/
def ir_gen (g : CodeGen) (node : AstNode) (scope : Scope) (exec : Stage1Zir) :
    CodeGen × Stage1Zir × Bool :=
  match node with
  | AstNode.exprStmt e _ => ir_gen_stmt g scope exec e
  | AstNode.blockNode stmts _ => ir_gen_stmts g scope exec stmts

/-- A function entry: its parameter names, body and declaration site. -/
structure ZigFn where
  paramNames : List String
  body : AstNode
  fnLoc : SrcLoc
deriving DecidableEq, Repr

/-- A compiler-created parameter binding of a function scope. -/
def mkParamVar (name : String) (loc : SrcLoc) : Variable :=
  { name := name, srcIsConst := true, genIsConst := false,
    isShadowable := false, skipNameCheck := false, isComptime := none,
    declLoc := loc }

/-- Modelled from the spec: `ir_gen_fn` creates the function's top scope,
registers its parameter bindings as Variables and lowers the body into a
fresh instruction stream.  The body is not in the repository's files. -/
def ir_gen_fn (g : CodeGen) (fn : ZigFn) : CodeGen × Stage1Zir × Bool :=
  let sc := Scope.child ScopeKind.fnDef
    (fn.paramNames.map (fun n => mkParamVar n fn.fnLoc)) (Scope.top [])
  ir_gen g fn.body sc emptyZir

/-- The display character of one decimal digit. -/
def digitChar : Nat → Char
  | 0 => '0'
  | 1 => '1'
  | 2 => '2'
  | 3 => '3'
  | 4 => '4'
  | 5 => '5'
  | 6 => '6'
  | 7 => '7'
  | 8 => '8'
  | _ => '9'

/-- The decimal digits of a number, least significant first. -/
def natDigitsRev (n : Nat) : List Nat :=
  if n < 10 then [n]
  else n % 10 :: natDigitsRev (n / 10)
decreasing_by exact Nat.div_lt_self (by omega) (by omega)

/-- The number a least-significant-first digit list denotes. -/
def digitsRevVal : List Nat → Nat
  | [] => 0
  | d :: ds => d + 10 * digitsRevVal ds

/-- Decimal rendering of a number, as characters. -/
def renderNat (n : Nat) : List Char :=
  ((natDigitsRev n).map digitChar).reverse

/-- A short display tag for one scope kind, used in anonymous-type names. -/
def scopeKindTag : ScopeKind → List Char
  | ScopeKind.topLevel => []
  | ScopeKind.fnDef => ['f', 'n', '.']
  | ScopeKind.blk => ['b', 'l', 'k', '.']
  | ScopeKind.loopScope => ['l', 'o', 'o', 'p', '.']
  | ScopeKind.comptimeBlock => ['c', 't', '.']
  | ScopeKind.deferScope => ['d', 'f', '.']
  | ScopeKind.errHandling => ['e', 'r', 'r', '.']

/-- The display text contributed by the enclosing scope chain, outermost
first. -/
def scopeDisplayChars : Scope → List Char
  | Scope.top _ => []
  | Scope.child k _ p => scopeDisplayChars p ++ scopeKindTag k

/-- Modelled from the spec: `get_anon_type_name` derives a display name
deterministically from the enclosing scope chain, the entity-kind tag and
the source location of the anonymous declaration ("kind:line:column" at the
end, as diagnostics print it).  The body is not in the repository's files
(only its declaration in `astgen.hpp`). -/
def get_anon_type_name (kind_name : String) (scope : Scope) (loc : SrcLoc) :
    String :=
  String.mk (scopeDisplayChars scope ++ kind_name.data ++
    ':' :: (renderNat loc.line ++ ':' :: renderNat loc.col))

/-- Backward-reference well-formedness of a stream: every operand reference
of the instruction at index `i` names a strictly earlier index. -/
def streamWf (l : List IrInstSrc) : Prop :=
  ∀ (i : Nat) (inst : IrInstSrc), l[i]? = some inst → ∀ j ∈ inst.operands, j < i

/-- Register a compiler-synthesized binding (skip-name-check set) `k` times
in a row, threading the grown scope through; `none` marks a failed step. -/
def registerRepeatedly (node_loc : SrcLoc) (name : String) :
    Nat → Scope → Option Scope
  | 0, sc => some sc
  | k + 1, sc =>
      match create_local_var node_loc sc name false false false none true with
      | Except.ok (sc2, _) => registerRepeatedly node_loc name k sc2
      | Except.error _ => none

/-- A non-shadowable user binding of `x` at line 1, column 1. -/
def collisionDemoVarX : Variable :=
  { name := "x", srcIsConst := true, genIsConst := true, isShadowable := false,
    skipNameCheck := false, isComptime := none, declLoc := ⟨1, 1⟩ }

/-- A top-level scope already holding the non-shadowable `x`. -/
def collisionDemoTop : Scope := Scope.top [collisionDemoVarX]

/-- A block scope nested below `collisionDemoTop`. -/
def collisionDemoChild : Scope :=
  Scope.child ScopeKind.blk [] collisionDemoTop

/-- A block scope whose ancestry passes through a comptime block. -/
def comptimeCallScopeDemo : Scope :=
  Scope.child ScopeKind.blk []
    (Scope.child ScopeKind.comptimeBlock [] (Scope.top []))

/-- A block scope inside an ordinary runtime function, no comptime ancestry. -/
def runtimeCallScopeDemo : Scope :=
  Scope.child ScopeKind.blk []
    (Scope.child ScopeKind.fnDef [] (Scope.top []))

/-- A shadowable binding of `a`, used by the pure-field-access scenario. -/
def fieldDemoVarA : Variable :=
  { name := "a", srcIsConst := true, genIsConst := true, isShadowable := true,
    skipNameCheck := false, isComptime := none, declLoc := ⟨1, 1⟩ }

/-- A block scope binding `a`, used by the pure-field-access scenario. -/
def fieldDemoScope : Scope :=
  Scope.child ScopeKind.blk [fieldDemoVarA] (Scope.top [])

/-- A terminal diagnostic already stored on a poisoned stream. -/
def poisonedDemoMsg : ErrorMsg :=
  { kind := DiagKind.unresolvedName, loc := ⟨1, 1⟩,
    msg := "use of undeclared identifier q", notes := [] }

/-- A stream already poisoned with `poisonedDemoMsg` as terminal diagnostic. -/
def poisonedDemoZir : Stage1Zir :=
  { instructions := [], poisoned := true, terminalDiag := some poisonedDemoMsg }

/-- A unit consisting of one discarded pure field-access statement, the
spec's `a.b;` scenario shape. -/
def pureFieldStmtNode (objName field : String) (l1 l2 l3 : SrcLoc) : AstNode :=
  AstNode.blockNode
    [AstExpr.fieldAccess (AstExpr.symbolRef objName l1) field l2] l3

theorem forced_iff_mem (sc : Scope) :
    is_forced_comptime sc = true ↔ ScopeKind.comptimeBlock ∈ sc.chainKinds := by
  induction sc with
  | top bs => simp [is_forced_comptime, Scope.chainKinds]
  | child k bs p ih =>
      simp only [is_forced_comptime, Scope.chainKinds, Bool.or_eq_true,
        beq_iff_eq, List.mem_cons, ih]
      constructor
      · rintro (h | h)
        · exact Or.inl h.symm
        · exact Or.inr h
      · rintro (h | h)
        · exact Or.inl h.symm
        · exact Or.inr h

theorem allBindings_descendant {t s : Scope} (h : t.isDescendantOf s) :
    ∃ pre : List Variable, t.allBindings = pre ++ s.allBindings := by
  induction h with
  | refl s => exact ⟨[], rfl⟩
  | step k bs h ih =>
      obtain ⟨pre, hp⟩ := ih
      exact ⟨bs ++ pre, by simp [Scope.allBindings, hp]⟩

/-- C2: poisoning is one-way and idempotent — invalidating an
already-poisoned stream (whatever the new diagnostic) leaves it poisoned and
leaves the original terminal diagnostic in place. -/
theorem invalidate_exec_one_way_idempotent
    (exec : Stage1Zir) (d m : ErrorMsg)
    (hp : exec.poisoned = true) (hd : exec.terminalDiag = some d) :
    (invalidate_exec exec m).poisoned = true ∧
    (invalidate_exec exec m).terminalDiag = some d := by
  simp [invalidate_exec, hp, hd]

theorem invalidate_exec_one_way_idempotent_witness :
    (invalidate_exec poisonedDemoZir (noEffectWarning ⟨2, 2⟩)).poisoned = true ∧
    (invalidate_exec poisonedDemoZir (noEffectWarning ⟨2, 2⟩)).terminalDiag
      = some poisonedDemoMsg :=
  invalidate_exec_one_way_idempotent poisonedDemoZir poisonedDemoMsg
    (noEffectWarning ⟨2, 2⟩) rfl rfl

/-- C3: `ir_should_inline` answers true exactly when some scope on the chain
from the given scope outward (itself included) is a comptime-forcing scope;
in particular it is true under forced-comptime ancestry and false in an
ordinary runtime scope. -/
theorem ir_should_inline_iff_forced_chain (exec : Stage1Zir) (sc : Scope) :
    (ir_should_inline exec sc = true
        ↔ ScopeKind.comptimeBlock ∈ sc.chainKinds) ∧
    ir_should_inline exec comptimeCallScopeDemo = true ∧
    ir_should_inline exec runtimeCallScopeDemo = false := by
  refine ⟨forced_iff_mem sc, rfl, rfl⟩

/-- C4: forced-comptime status is monotonic down the scope chain — a
descendant of a forced scope is forced, and a scope with no comptime-forcing
scope anywhere on its chain is not forced. -/
theorem is_forced_comptime_monotonic (s : Scope) :
    (is_forced_comptime s = true →
      ∀ t : Scope, t.isDescendantOf s → is_forced_comptime t = true) ∧
    (ScopeKind.comptimeBlock ∉ s.chainKinds → is_forced_comptime s = false) := by
  constructor
  · intro hs t hdesc
    induction hdesc with
    | refl s => exact hs
    | step k bs h ih =>
        simp only [is_forced_comptime, Bool.or_eq_true, beq_iff_eq]
        exact Or.inr (ih hs)
  · intro hnot
    cases h : is_forced_comptime s with
    | false => rfl
    | true => exact absurd ((forced_iff_mem s).mp h) hnot

/-- C7: call-stack rendering appends the most-recent-first frames, at most
`limit` of them (exactly `min limit depth`), and on zero-depth input returns
the diagnostic unchanged without appending any frame. -/
theorem call_stack_frames_truncated
    (exec : Stage1Air) (msg : ErrorMsg) (limit : Int) :
    ((ir_add_call_stack_errors_gen exec msg limit).notes
        = msg.notes ++ (exec.callStack.take limit.toNat).map
            (fun fr => (fr.1, "called from here"))) ∧
    ((ir_add_call_stack_errors_gen exec msg limit).notes.length
        = msg.notes.length + min limit.toNat exec.callStack.length) ∧
    ((ir_add_call_stack_errors_gen exec msg limit).notes.length
        ≤ msg.notes.length + limit.toNat) ∧
    (exec.callStack = [] → ir_add_call_stack_errors_gen exec msg limit = msg) := by
  refine ⟨rfl, ?_, ?_, ?_⟩
  · simp only [ir_add_call_stack_errors_gen, List.length_append,
      List.length_map, List.length_take]
  · simp only [ir_add_call_stack_errors_gen, List.length_append,
      List.length_map, List.length_take]
    omega
  · intro h
    simp [ir_add_call_stack_errors_gen, h]

/-- C8: a compiler-synthesized binding registered with `skip_name_check` set
always succeeds — one registration returns the appended variable, and any
number of repeated registrations of the same synthesized name never fails. -/
theorem skip_name_check_never_collides (sc : Scope) (node_loc : SrcLoc)
    (name : String) (c1 c2 sh : Bool) (ct : Option Nat) :
    (∃ v : Variable,
        create_local_var node_loc sc name c1 c2 sh ct true
          = Except.ok (sc.addBinding v, v)) ∧
    (∀ k : Nat, ∃ sc2 : Scope,
        registerRepeatedly node_loc name k sc = some sc2) := by
  constructor
  · exact ⟨_, rfl⟩
  · intro k
    induction k generalizing sc with
    | zero => exact ⟨sc, rfl⟩
    | succ k ih => simpa [registerRepeatedly, create_local_var] using ih _

/-- C1: once a name is bound non-shadowably in a scope or any of its
ancestors, registering that name again (with the check enabled) at that
scope or any descendant fails with a `NameCollision` diagnostic carrying the
new declaration's location and noting the prior declaration's location. -/
theorem name_collision_blocks_redeclaration
    (s t : Scope) (name : String) (node_loc : SrcLoc)
    (c1 c2 sh : Bool) (ct : Option Nat)
    (hdesc : t.isDescendantOf s)
    (hbound : ∃ v ∈ s.allBindings, v.name = name ∧ v.isShadowable = false) :
    ∃ e : ErrorMsg,
      create_local_var node_loc t name c1 c2 sh ct false = Except.error e ∧
      e.kind = DiagKind.nameCollision ∧ e.loc = node_loc ∧
      ∃ prior ∈ t.allBindings, prior.name = name ∧
        e.notes = [(prior.declLoc, "previous declaration is here")] := by
  obtain ⟨v, hvmem, hvname, hvshadow⟩ := hbound
  obtain ⟨pre, hpre⟩ := allBindings_descendant hdesc
  have hvt : v ∈ t.allBindings := by
    rw [hpre]
    exact List.mem_append_right pre hvmem
  have hcoll : collidesWith name sh v = true := by
    simp [collidesWith, hvname, hvshadow]
  cases hf : findCollision t name sh with
  | none =>
      rw [findCollision, List.find?_eq_none] at hf
      exact absurd hcoll (hf v hvt)
  | some w =>
      have hwp : collidesWith name sh w = true := List.find?_some hf
      have hwm : w ∈ t.allBindings := List.mem_of_find?_eq_some hf
      have hwname : w.name = name := by
        simp only [collidesWith, Bool.and_eq_true, beq_iff_eq] at hwp
        exact hwp.1
      refine ⟨{ kind := DiagKind.nameCollision, loc := node_loc,
                msg := "redeclaration of " ++ name,
                notes := [(w.declLoc, "previous declaration is here")] },
              ?_, rfl, rfl, w, hwm, hwname, rfl⟩
      simp [create_local_var, hf]

theorem name_collision_blocks_redeclaration_witness :
    ∃ e : ErrorMsg,
      create_local_var ⟨5, 3⟩ collisionDemoChild "x" true true true none false
        = Except.error e ∧
      e.kind = DiagKind.nameCollision ∧ e.loc = ⟨5, 3⟩ ∧
      ∃ prior ∈ collisionDemoChild.allBindings, prior.name = "x" ∧
        e.notes = [(prior.declLoc, "previous declaration is here")] :=
  name_collision_blocks_redeclaration collisionDemoTop collisionDemoChild
    "x" ⟨5, 3⟩ true true true none
    (Scope.isDescendantOf.step ScopeKind.blk []
      (Scope.isDescendantOf.refl collisionDemoTop))
    ⟨collisionDemoVarX, by decide, rfl, rfl⟩

/-- C10 counterexample: on a name collision `create_local_var` does not
return a variable — at this concrete input it returns the failure value
carrying the `NameCollision` diagnostic, refuting "for every input it
returns a Variable". -/
theorem create_local_var_collision_returns_failure :
    create_local_var ⟨5, 3⟩ collisionDemoChild "x" true true false none false
      = Except.error
          { kind := DiagKind.nameCollision, loc := ⟨5, 3⟩,
            msg := "redeclaration of x",
            notes := [(⟨1, 1⟩, "previous declaration is here")] } := by
  rfl

/-- C10 (amended): `create_local_var` returns an appended variable whenever
the check is skipped or no forbidden collision exists; on a detected
collision (check enabled) it returns the failure value — never a Variable —
carrying the `NameCollision` diagnostic with both declaration sites: the new
site as its location and the prior declaration's site in its notes; and any
failure value it ever returns is such a `NameCollision` at the new site. -/
theorem create_local_var_result_characterized
    (node_loc : SrcLoc) (sc : Scope) (name : String)
    (c1 c2 sh : Bool) (ct : Option Nat) (skip : Bool) :
    (skip = true ∨ findCollision sc name sh = none →
      ∃ v : Variable, create_local_var node_loc sc name c1 c2 sh ct skip
        = Except.ok (sc.addBinding v, v)) ∧
    (∀ prior : Variable, skip = false → findCollision sc name sh = some prior →
      create_local_var node_loc sc name c1 c2 sh ct skip
        = Except.error
            { kind := DiagKind.nameCollision, loc := node_loc,
              msg := "redeclaration of " ++ name,
              notes := [(prior.declLoc, "previous declaration is here")] }) ∧
    (∀ e : ErrorMsg, create_local_var node_loc sc name c1 c2 sh ct skip
        = Except.error e →
      e.kind = DiagKind.nameCollision ∧ e.loc = node_loc) := by
  cases skip with
  | true =>
      refine ⟨fun _ => ⟨_, rfl⟩, fun prior hskip _ => ?_, fun e he => ?_⟩
      · exact absurd hskip (by simp)
      · simp [create_local_var] at he
  | false =>
      cases hf : findCollision sc name sh with
      | none =>
          refine ⟨fun _ => ⟨mkLocalVar node_loc name c1 c2 sh ct false,
              ?_⟩, fun prior _ hf2 => ?_, fun e he => ?_⟩
          · simp [create_local_var, hf]
          · exact Option.noConfusion hf2
          · simp [create_local_var, hf] at he
      | some w =>
          have heq : create_local_var node_loc sc name c1 c2 sh ct false
              = Except.error
                  { kind := DiagKind.nameCollision, loc := node_loc,
                    msg := "redeclaration of " ++ name,
                    notes := [(w.declLoc, "previous declaration is here")] } := by
            simp [create_local_var, hf]
          refine ⟨fun h => ?_, fun prior _ hf2 => ?_, fun e he => ?_⟩
          · rcases h with h | h
            · exact absurd h (by simp)
            · simp [hf] at h
          · injection hf2 with hwp
            rw [← hwp]
            exact heq
          · rw [heq] at he
            injection he with he2
            rw [← he2]
            exact ⟨rfl, rfl⟩

theorem invalidate_exec_instructions (exec : Stage1Zir) (m : ErrorMsg) :
    (invalidate_exec exec m).instructions = exec.instructions := by
  unfold invalidate_exec
  split <;> rfl

theorem streamWf_nil : streamWf [] := by
  intro i inst h j hj
  simp at h

theorem streamWf_append (l : List IrInstSrc) (k : IrInstKind) (ops : List Nat)
    (hl : streamWf l) (hops : ∀ j ∈ ops, j < l.length) :
    streamWf (l ++ [{ kind := k, operands := ops }]) := by
  intro i inst hi j hj
  rcases Nat.lt_trichotomy i l.length with h | h | h
  · rw [List.getElem?_append, if_pos h] at hi
    exact hl i inst hi j hj
  · subst h
    rw [List.getElem?_append, if_neg (by omega)] at hi
    simp at hi
    rw [← hi] at hj
    exact hops j hj
  · rw [List.getElem?_append, if_neg (by omega)] at hi
    cases hm : i - l.length with
    | zero => omega
    | succ m =>
        rw [hm] at hi
        simp at hi

theorem ir_gen_expr_inv (e : AstExpr) :
    ∀ (g : CodeGen) (sc : Scope) (exec : Stage1Zir) (rl : ResultLoc),
      exec.instructions.length
          ≤ (ir_gen_expr g sc exec rl e).2.1.instructions.length ∧
      (streamWf exec.instructions →
        streamWf (ir_gen_expr g sc exec rl e).2.1.instructions) ∧
      (∀ i : Nat, (ir_gen_expr g sc exec rl e).2.2 = some i →
        i < (ir_gen_expr g sc exec rl e).2.1.instructions.length) := by
  induction e with
  | intLit v l =>
      intro g sc exec rl
      have hres : ir_gen_expr g sc exec rl (AstExpr.intLit v l)
          = (g, { exec with instructions := exec.instructions
                    ++ [{ kind := IrInstKind.constInt v, operands := [] }] },
             some exec.instructions.length) := rfl
      rw [hres]
      refine ⟨by simp, fun hwf => ?_, fun i hi => ?_⟩
      · exact streamWf_append _ _ _ hwf (by simp)
      · simp at hi ⊢
        omega
  | symbolRef name l =>
      intro g sc exec rl
      cases hl : sc.lookup name with
      | some v =>
          have hres : ir_gen_expr g sc exec rl (AstExpr.symbolRef name l)
              = (g, { exec with instructions := exec.instructions
                        ++ [{ kind := IrInstKind.varRef name, operands := [] }] },
                 some exec.instructions.length) := by
            simp [ir_gen_expr, hl, appendInst]
          rw [hres]
          refine ⟨by simp, fun hwf => ?_, fun i hi => ?_⟩
          · exact streamWf_append _ _ _ hwf (by simp)
          · simp at hi ⊢
            omega
      | none =>
          have hres : (ir_gen_expr g sc exec rl (AstExpr.symbolRef name l)).2.1.instructions
              = exec.instructions := by
            simp [ir_gen_expr, hl, invalidate_exec_instructions]
          have hres2 : (ir_gen_expr g sc exec rl (AstExpr.symbolRef name l)).2.2
              = none := by
            simp [ir_gen_expr, hl]
          rw [hres, hres2]
          exact ⟨Nat.le_refl _, fun hwf => hwf, fun i hi => Option.noConfusion hi⟩
  | fieldAccess obj field l ih =>
      intro g sc exec rl
      obtain ⟨ih1, ih2, ih3⟩ := ih g sc exec no_result_loc
      cases hr : ir_gen_expr g sc exec no_result_loc obj with
      | mk g1 r =>
        cases r with
        | mk e1 ri =>
          rw [hr] at ih1 ih2 ih3
          cases ri with
          | none =>
              have ha : exec.instructions.length ≤ e1.instructions.length := ih1
              have hb : streamWf exec.instructions → streamWf e1.instructions := ih2
              have hres : ir_gen_expr g sc exec rl (AstExpr.fieldAccess obj field l)
                  = (g1, e1, none) := by
                simp [ir_gen_expr, hr]
              rw [hres]
              exact ⟨ha, hb, fun i hi => Option.noConfusion hi⟩
          | some oi =>
              have ha : exec.instructions.length ≤ e1.instructions.length := ih1
              have hb : streamWf exec.instructions → streamWf e1.instructions := ih2
              have hoi : oi < e1.instructions.length := ih3 oi rfl
              have hres : ir_gen_expr g sc exec rl (AstExpr.fieldAccess obj field l)
                  = (g1, { e1 with instructions := e1.instructions
                        ++ [{ kind := IrInstKind.fieldPtr field, operands := [oi] }] },
                     some e1.instructions.length) := by
                simp [ir_gen_expr, hr, appendInst]
              rw [hres]
              refine ⟨?_, fun hwf => ?_, fun i hi => ?_⟩
              · simp only [List.length_append, List.length_cons, List.length_nil]
                omega
              · refine streamWf_append _ _ _ (hb hwf) ?_
                intro j hj
                simp at hj
                omega
              · simp at hi ⊢
                omega
  | callExpr fn arg l ihf iha =>
      intro g sc exec rl
      obtain ⟨f1, f2, f3⟩ := ihf g sc exec no_result_loc
      cases hr1 : ir_gen_expr g sc exec no_result_loc fn with
      | mk g1 r1 =>
        cases r1 with
        | mk e1 ri1 =>
          rw [hr1] at f1 f2 f3
          cases ri1 with
          | none =>
              have fa : exec.instructions.length ≤ e1.instructions.length := f1
              have fb : streamWf exec.instructions → streamWf e1.instructions := f2
              have hres : ir_gen_expr g sc exec rl (AstExpr.callExpr fn arg l)
                  = (g1, e1, none) := by
                simp [ir_gen_expr, hr1]
              rw [hres]
              exact ⟨fa, fb, fun i hi => Option.noConfusion hi⟩
          | some fi =>
              have fa : exec.instructions.length ≤ e1.instructions.length := f1
              have fb : streamWf exec.instructions → streamWf e1.instructions := f2
              have hfi : fi < e1.instructions.length := f3 fi rfl
              obtain ⟨a1, a2, a3⟩ := iha g1 sc e1 no_result_loc
              cases hr2 : ir_gen_expr g1 sc e1 no_result_loc arg with
              | mk g2 r2 =>
                cases r2 with
                | mk e2 ri2 =>
                  rw [hr2] at a1 a2 a3
                  cases ri2 with
                  | none =>
                      have aa : e1.instructions.length ≤ e2.instructions.length := a1
                      have ab : streamWf e1.instructions → streamWf e2.instructions := a2
                      have hres : ir_gen_expr g sc exec rl (AstExpr.callExpr fn arg l)
                          = (g2, e2, none) := by
                        simp [ir_gen_expr, hr1, hr2]
                      rw [hres]
                      exact ⟨Nat.le_trans fa aa, fun hwf => ab (fb hwf),
                        fun i hi => Option.noConfusion hi⟩
                  | some ai =>
                      have aa : e1.instructions.length ≤ e2.instructions.length := a1
                      have ab : streamWf e1.instructions → streamWf e2.instructions := a2
                      have hai : ai < e2.instructions.length := a3 ai rfl
                      have hfi2 : fi < e2.instructions.length :=
                        Nat.lt_of_lt_of_le hfi aa
                      have hres : ir_gen_expr g sc exec rl (AstExpr.callExpr fn arg l)
                          = (g2, { e2 with instructions := e2.instructions
                                ++ [{ kind := IrInstKind.callInst,
                                      operands := [fi, ai] }] },
                             some e2.instructions.length) := by
                        simp [ir_gen_expr, hr1, hr2, appendInst]
                      rw [hres]
                      refine ⟨?_, fun hwf => ?_, fun i hi => ?_⟩
                      · simp only [List.length_append, List.length_cons,
                          List.length_nil]
                        omega
                      · refine streamWf_append _ _ _ (ab (fb hwf)) ?_
                        intro j hj
                        simp at hj
                        rcases hj with h | h <;> omega
                      · simp at hi ⊢
                        omega

theorem ir_gen_stmt_stream (g : CodeGen) (sc : Scope) (exec : Stage1Zir)
    (stmt : AstExpr) :
    (ir_gen_stmt g sc exec stmt).2.1
      = (ir_gen_expr g sc exec ResultLoc.discard stmt).2.1 := by
  unfold ir_gen_stmt
  split
  · split
    · split <;> simp_all
    · simp_all
  · simp_all

theorem ir_gen_stmt_wf (g : CodeGen) (sc : Scope) (exec : Stage1Zir)
    (stmt : AstExpr) (h : streamWf exec.instructions) :
    streamWf (ir_gen_stmt g sc exec stmt).2.1.instructions := by
  rw [ir_gen_stmt_stream]
  exact (ir_gen_expr_inv stmt g sc exec ResultLoc.discard).2.1 h

theorem ir_gen_stmts_wf (stmts : List AstExpr) :
    ∀ (g : CodeGen) (sc : Scope) (exec : Stage1Zir),
      streamWf exec.instructions →
      streamWf (ir_gen_stmts g sc exec stmts).2.1.instructions := by
  induction stmts with
  | nil => exact fun g sc exec h => h
  | cons s rest ih =>
      intro g sc exec h
      unfold ir_gen_stmts
      have hwf1 := ir_gen_stmt_wf g sc exec s h
      cases hr : ir_gen_stmt g sc exec s with
      | mk g1 r =>
        cases r with
        | mk e1 ok =>
          rw [hr] at hwf1
          cases ok with
          | true => exact ih g1 sc e1 hwf1
          | false => exact hwf1

theorem ir_gen_wf (g : CodeGen) (node : AstNode) (sc : Scope) (exec : Stage1Zir)
    (h : streamWf exec.instructions) :
    streamWf (ir_gen g node sc exec).2.1.instructions := by
  cases node with
  | exprStmt e l => exact ir_gen_stmt_wf g sc exec e h
  | blockNode stmts l => exact ir_gen_stmts_wf stmts g sc exec h

/-- C5: every operand reference in a stream produced by lowering (`ir_gen`
from a fresh stream, or `ir_gen_fn`) names a strictly earlier index of the
same stream, and the backward-reference invariant is preserved by every
append of an instruction whose operands reference existing indices. -/
theorem lowering_streams_backward_refs
    (g : CodeGen) (node : AstNode) (sc : Scope) (fn : ZigFn)
    (exec : Stage1Zir) (k : IrInstKind) (ops : List Nat) :
    streamWf (ir_gen g node sc emptyZir).2.1.instructions ∧
    streamWf (ir_gen_fn g fn).2.1.instructions ∧
    (streamWf exec.instructions → (∀ j ∈ ops, j < exec.instructions.length) →
      streamWf (appendInst exec k ops).1.instructions) := by
  refine ⟨ir_gen_wf g node sc emptyZir streamWf_nil, ?_,
    fun hwf hops => streamWf_append _ _ _ hwf hops⟩
  exact ir_gen_wf g fn.body
    (Scope.child ScopeKind.fnDef
      (fn.paramNames.map (fun n => mkParamVar n fn.fnLoc)) (Scope.top []))
    emptyZir streamWf_nil

/-- C6: lowering a discarded pure field-access statement (the resulting
field-access instruction has no side effects) completes successfully, leaves
the stream clean — not poisoned, no terminal diagnostic, no fatal error —
and records the "statement has no effect" diagnostic as a non-fatal
warning. -/
theorem pure_statement_warns_without_poison
    (g : CodeGen) (sc : Scope) (v : Variable) (objName field : String)
    (l1 l2 l3 : SrcLoc)
    (hlook : sc.lookup objName = some v) :
    (ir_gen g (pureFieldStmtNode objName field l1 l2 l3) sc emptyZir).2.2 = true ∧
    (ir_gen g (pureFieldStmtNode objName field l1 l2 l3) sc emptyZir).2.1.poisoned
      = false ∧
    (ir_gen g (pureFieldStmtNode objName field l1 l2 l3) sc emptyZir).2.1.terminalDiag
      = none ∧
    (ir_gen g (pureFieldStmtNode objName field l1 l2 l3) sc emptyZir).1.errors
      = g.errors ∧
    (ir_gen g (pureFieldStmtNode objName field l1 l2 l3) sc emptyZir).1.warnings
      = g.warnings ++ [noEffectWarning l2] := by
  have hexpr : ir_gen_expr g sc emptyZir ResultLoc.discard
      (AstExpr.fieldAccess (AstExpr.symbolRef objName l1) field l2)
      = (g, { instructions :=
                [{ kind := IrInstKind.varRef objName, operands := [] },
                 { kind := IrInstKind.fieldPtr field, operands := [0] }],
              poisoned := false, terminalDiag := none },
         some 1) := by
    simp [ir_gen_expr, hlook, appendInst, emptyZir, no_result_loc]
  have hmain : ir_gen g (pureFieldStmtNode objName field l1 l2 l3) sc emptyZir
      = (g.addWarning (noEffectWarning l2),
         { instructions :=
             [{ kind := IrInstKind.varRef objName, operands := [] },
              { kind := IrInstKind.fieldPtr field, operands := [0] }],
           poisoned := false, terminalDiag := none },
         true) := by
    simp [pureFieldStmtNode, ir_gen, ir_gen_stmts, ir_gen_stmt, hexpr,
      ir_inst_src_has_side_effects, AstExpr.loc]
  rw [hmain]
  exact ⟨rfl, rfl, rfl, rfl, rfl⟩

theorem pure_statement_warns_without_poison_witness :
    fieldDemoScope.lookup "a" = some fieldDemoVarA ∧
    ((ir_gen { errors := [], warnings := [] }
        (pureFieldStmtNode "a" "b" ⟨2, 1⟩ ⟨2, 3⟩ ⟨2, 1⟩)
        fieldDemoScope emptyZir).2.2 = true ∧
     (ir_gen { errors := [], warnings := [] }
        (pureFieldStmtNode "a" "b" ⟨2, 1⟩ ⟨2, 3⟩ ⟨2, 1⟩)
        fieldDemoScope emptyZir).2.1.poisoned = false ∧
     (ir_gen { errors := [], warnings := [] }
        (pureFieldStmtNode "a" "b" ⟨2, 1⟩ ⟨2, 3⟩ ⟨2, 1⟩)
        fieldDemoScope emptyZir).2.1.terminalDiag = none ∧
     (ir_gen { errors := [], warnings := [] }
        (pureFieldStmtNode "a" "b" ⟨2, 1⟩ ⟨2, 3⟩ ⟨2, 1⟩)
        fieldDemoScope emptyZir).1.errors
       = ({ errors := [], warnings := [] } : CodeGen).errors ∧
     (ir_gen { errors := [], warnings := [] }
        (pureFieldStmtNode "a" "b" ⟨2, 1⟩ ⟨2, 3⟩ ⟨2, 1⟩)
        fieldDemoScope emptyZir).1.warnings
       = ({ errors := [], warnings := [] } : CodeGen).warnings
           ++ [noEffectWarning ⟨2, 3⟩]) :=
  ⟨rfl, pure_statement_warns_without_poison { errors := [], warnings := [] }
      fieldDemoScope fieldDemoVarA "a" "b" ⟨2, 1⟩ ⟨2, 3⟩ ⟨2, 1⟩ rfl⟩

theorem digitsRevVal_natDigitsRev (n : Nat) :
    digitsRevVal (natDigitsRev n) = n := by
  induction n using Nat.strong_induction_on with
  | _ n ih =>
      rw [natDigitsRev]
      split
      · simp [digitsRevVal]
      · rename_i h
        rw [digitsRevVal, ih (n / 10) (Nat.div_lt_self (by omega) (by omega))]
        omega

theorem natDigitsRev_lt_ten (n : Nat) : ∀ d ∈ natDigitsRev n, d < 10 := by
  induction n using Nat.strong_induction_on with
  | _ n ih =>
      rw [natDigitsRev]
      split
      · rename_i h
        intro d hd
        simp at hd
        omega
      · rename_i h
        intro d hd
        simp at hd
        rcases hd with hd | hd
        · omega
        · exact ih (n / 10) (Nat.div_lt_self (by omega) (by omega)) d hd

theorem natDigitsRev_inj {a b : Nat} (h : natDigitsRev a = natDigitsRev b) :
    a = b := by
  have hv := congrArg digitsRevVal h
  rwa [digitsRevVal_natDigitsRev, digitsRevVal_natDigitsRev] at hv

theorem digitChar_inj_lt :
    ∀ a < 10, ∀ b < 10, digitChar a = digitChar b → a = b := by
  decide

theorem digitChar_ne_colon : ∀ a < 10, digitChar a ≠ ':' := by
  decide

theorem map_digitChar_inj : ∀ (l1 l2 : List Nat),
    (∀ d ∈ l1, d < 10) → (∀ d ∈ l2, d < 10) →
    l1.map digitChar = l2.map digitChar → l1 = l2 := by
  intro l1
  induction l1 with
  | nil =>
      intro l2 _ _ h
      cases l2 with
      | nil => rfl
      | cons b t2 => simp at h
  | cons a t ih =>
      intro l2 h1 h2 h
      cases l2 with
      | nil => simp at h
      | cons b t2 =>
          simp only [List.map_cons, List.cons.injEq] at h
          have ha : a < 10 := h1 a (by simp)
          have hb : b < 10 := h2 b (by simp)
          have hab := digitChar_inj_lt a ha b hb h.1
          rw [hab, ih t2 (fun d hd => h1 d (by simp [hd]))
            (fun d hd => h2 d (by simp [hd])) h.2]

theorem renderNat_inj {a b : Nat} (h : renderNat a = renderNat b) : a = b := by
  unfold renderNat at h
  have h2 := List.reverse_injective h
  exact natDigitsRev_inj
    (map_digitChar_inj _ _ (natDigitsRev_lt_ten a) (natDigitsRev_lt_ten b) h2)

theorem renderNat_no_colon (n : Nat) : ':' ∉ renderNat n := by
  unfold renderNat
  intro hmem
  rw [List.mem_reverse, List.mem_map] at hmem
  obtain ⟨d, hd, hc⟩ := hmem
  exact digitChar_ne_colon d (natDigitsRev_lt_ten n d hd) hc

theorem sep_split {c : Char} : ∀ (a1 a2 b1 b2 : List Char), c ∉ a1 → c ∉ a2 →
    a1 ++ c :: b1 = a2 ++ c :: b2 → a1 = a2 ∧ b1 = b2 := by
  intro a1
  induction a1 with
  | nil =>
      intro a2 b1 b2 _ h2 h
      cases a2 with
      | nil =>
          simp only [List.nil_append, List.cons.injEq] at h
          exact ⟨rfl, h.2⟩
      | cons x t =>
          simp only [List.nil_append, List.cons_append, List.cons.injEq] at h
          exact absurd (by simp [← h.1]) h2
  | cons x t ih =>
      intro a2 b1 b2 h1 h2 h
      cases a2 with
      | nil =>
          simp only [List.cons_append, List.nil_append, List.cons.injEq] at h
          exact absurd (by simp [h.1]) h1
      | cons y t2 =>
          simp only [List.cons_append, List.cons.injEq] at h
          obtain ⟨hxy, hrest⟩ := h
          have hnc1 : c ∉ t := fun hm => h1 (by simp [hm])
          have hnc2 : c ∉ t2 := fun hm => h2 (by simp [hm])
          obtain ⟨he1, he2⟩ := ih t2 b1 b2 hnc1 hnc2 hrest
          exact ⟨by rw [hxy, he1], he2⟩

/-- C9: the anonymous-type display name is derived deterministically from
the scope chain, entity-kind tag and source location, and is injective in
the source location — the same kind of anonymous declaration at two
different locations under the same surrounding scope never receives the
same display name. -/
theorem anon_type_name_loc_injective
    (kind_name : String) (sc : Scope) (loc1 loc2 : SrcLoc)
    (hne : loc1 ≠ loc2) :
    get_anon_type_name kind_name sc loc1
      ≠ get_anon_type_name kind_name sc loc2 := by
  intro heq
  apply hne
  have hdata : scopeDisplayChars sc ++ kind_name.data ++
      ':' :: (renderNat loc1.line ++ ':' :: renderNat loc1.col)
      = scopeDisplayChars sc ++ kind_name.data ++
      ':' :: (renderNat loc2.line ++ ':' :: renderNat loc2.col) :=
    congrArg String.data heq
  have h2 := List.append_cancel_left hdata
  injection h2 with hh h3
  obtain ⟨hl, hc⟩ := sep_split (renderNat loc1.line) (renderNat loc2.line)
    (renderNat loc1.col) (renderNat loc2.col)
    (renderNat_no_colon loc1.line) (renderNat_no_colon loc2.line) h3
  have hline := renderNat_inj hl
  have hcol := renderNat_inj hc
  cases loc1
  cases loc2
  simp_all

theorem anon_type_name_loc_injective_witness :
    (⟨3, 4⟩ : SrcLoc) ≠ (⟨3, 5⟩ : SrcLoc) ∧
    get_anon_type_name "struct" (Scope.top []) ⟨3, 4⟩
      ≠ get_anon_type_name "struct" (Scope.top []) ⟨3, 5⟩ :=
  ⟨by decide, anon_type_name_loc_injective "struct" (Scope.top []) ⟨3, 4⟩ ⟨3, 5⟩
    (by decide)⟩

end ZigIr
